import Mathlib

/-!
Verification development for the native audio-capture core
(silence suppression, streaming resampler, microphone/system-audio streams).

The definitions below are a shallow embedding of the Rust sources under
`src/native-module/src/`:

* `silence_suppression.rs` — the `SilenceSuppressor` state machine.
  `Instant` timestamps are modelled as natural numbers (a monotone clock in
  arbitrary units); `Duration` values likewise.  `Instant::duration_since`
  saturates at zero, which truncated natural subtraction matches exactly.
  The only use the code makes of the floating-point RMS value is the single
  comparison `rms >= speech_threshold_rms`; that comparison is embedded
  exactly over the rationals (`hasSpeech` below) by squaring:
  for a nonempty frame, `sqrt (sumsq / count) ≥ thr` iff
  `thr ≤ 0 ∨ thr² · count ≤ sumsq`.
* `streaming_resampler.rs` — the `StreamingResampler`.  `f32`/`f64`
  arithmetic is embedded as exact rational arithmetic; the `as i16` cast of
  a clamped float is truncation toward zero.
* `microphone.rs` / `speaker/*.rs` — only the device-selection logic of
  `MicrophoneStream::new` and the `take_consumer` accessors are relevant to
  the claims; ring buffers (`HeapCons<f32>`) are abstracted to opaque
  tokens (a `Nat` handle) since only their `Option` wrapper is examined.
-/

namespace Rustyn

/-! ## Silence suppressor (src/native-module/src/silence_suppression.rs) -/

/-- Embeds `SilenceSuppressionConfig`: RMS threshold (rational, in the i16
scale), hangover and keepalive durations (natural-number clock units,
milliseconds in the presets). -/
structure SilenceSuppressionConfig where
  speech_threshold_rms : ℚ
  speech_hangover : ℕ
  silence_keepalive_interval : ℕ
deriving DecidableEq

/-- Embeds `impl Default for SilenceSuppressionConfig`. -/
def SilenceSuppressionConfig.default : SilenceSuppressionConfig :=
  { speech_threshold_rms := 100
    speech_hangover := 200
    silence_keepalive_interval := 100 }

/-- Embeds `SilenceSuppressionConfig::for_system_audio`. -/
def SilenceSuppressionConfig.for_system_audio : SilenceSuppressionConfig :=
  { speech_threshold_rms := 30
    speech_hangover := 300
    silence_keepalive_interval := 100 }

/-- Embeds `SilenceSuppressionConfig::for_microphone`. -/
def SilenceSuppressionConfig.for_microphone : SilenceSuppressionConfig :=
  { speech_threshold_rms := 100
    speech_hangover := 200
    silence_keepalive_interval := 100 }

/-- Embeds `enum SuppressionState`. -/
inductive SuppressionState where
  | Active
  | Hangover
  | Suppressed
deriving DecidableEq

/-- Embeds `enum FrameAction` (frames are lists of i16 samples, as `Int`). -/
inductive FrameAction where
  | Send (frame : List Int)
  | SendSilence
  | Suppress
deriving DecidableEq

/-- Embeds `struct SilenceSuppressor`. -/
structure SilenceSuppressor where
  config : SilenceSuppressionConfig
  state : SuppressionState
  last_speech_time : ℕ
  last_keepalive_time : ℕ
  frames_sent : ℕ
  frames_suppressed : ℕ
deriving DecidableEq

/-- Embeds `SilenceSuppressor::new` (both timestamps start at `now`). -/
def SilenceSuppressor.new (config : SilenceSuppressionConfig) (now : ℕ) :
    SilenceSuppressor :=
  { config := config
    state := .Active
    last_speech_time := now
    last_keepalive_time := now
    frames_sent := 0
    frames_suppressed := 0 }

/-- Every 4th element of a list, embedding `samples.iter().step_by(4)` in
`calculate_rms`. -/
def stepBy4 : List Int → List Int
  | [] => []
  | [a] => [a]
  | [a, _] => [a]
  | [a, _, _] => [a]
  | a :: _ :: _ :: _ :: rest => a :: stepBy4 rest

/-- The `sum_of_squares` accumulator of `calculate_rms`, over every 4th
sample. -/
def rmsSumSquares (samples : List Int) : Int :=
  ((stepBy4 samples).map (fun s => s * s)).sum

/-- The `count` of `calculate_rms`: `(samples.len() + 3) / 4`. -/
def rmsSampleCount (n : ℕ) : ℕ := (n + 3) / 4

/-- Embeds the comparison `calculate_rms(frame) >= config.speech_threshold_rms`
from `SilenceSuppressor::process`, exactly, by squaring: the RMS of the code is
`sqrt (sum_of_squares / count)` (and `0.0` for an empty frame), so for a
nonempty frame `rms ≥ thr` iff `thr ≤ 0` or `thr² · count ≤ sum_of_squares`.
The rational comparison is written with denominators cleared
(`thr = num/den`, `den > 0`), so it is integer arithmetic and computes. -/
def hasSpeech (config : SilenceSuppressionConfig) (frame : List Int) : Bool :=
  if frame.isEmpty then
    decide (config.speech_threshold_rms.num ≤ 0)
  else
    decide (config.speech_threshold_rms.num ≤ 0) ||
      decide (config.speech_threshold_rms.num * config.speech_threshold_rms.num *
          (rmsSampleCount frame.length : ℤ)
        ≤ rmsSumSquares frame * (config.speech_threshold_rms.den : ℤ) *
          (config.speech_threshold_rms.den : ℤ))

/-- Embeds the final keepalive check of `SilenceSuppressor::process` (the code
after the `match`, reached in the `Suppressed` state): emit a `SendSilence`
keepalive when `now.duration_since(last_keepalive_time) >= silence_keepalive_interval`,
else suppress the frame. -/
def keepaliveCheck (s : SilenceSuppressor) (now : ℕ) :
    FrameAction × SilenceSuppressor :=
  if s.config.silence_keepalive_interval ≤ now - s.last_keepalive_time then
    (.SendSilence,
      { s with last_keepalive_time := now, frames_sent := s.frames_sent + 1 })
  else
    (.Suppress, { s with frames_suppressed := s.frames_suppressed + 1 })

/-- Embeds `SilenceSuppressor::process`.  `now` is the value of
`Instant::now()` at the call, passed explicitly. -/
def process (s : SilenceSuppressor) (now : ℕ) (frame : List Int) :
    FrameAction × SilenceSuppressor :=
  if hasSpeech s.config frame then
    (.Send frame,
      { s with state := .Active
               last_speech_time := now
               frames_sent := s.frames_sent + 1 })
  else
    match s.state with
    | .Active | .Hangover =>
      if s.config.speech_hangover < now - s.last_speech_time then
        keepaliveCheck { s with state := .Suppressed } now
      else
        (.Send frame,
          { s with state := .Hangover, frames_sent := s.frames_sent + 1 })
    | .Suppressed => keepaliveCheck s now

/-- Embeds `SilenceSuppressor::stats`. -/
def stats (s : SilenceSuppressor) : ℕ × ℕ :=
  (s.frames_sent, s.frames_suppressed)

/-- Embeds `SilenceSuppressor::is_speech`. -/
def is_speech (s : SilenceSuppressor) : Bool :=
  s.state = SuppressionState.Active ∨ s.state = SuppressionState.Hangover

/-- Embeds `SilenceSuppressor::reset`. -/
def reset (s : SilenceSuppressor) (now : ℕ) : SilenceSuppressor :=
  { s with state := .Active
           last_speech_time := now
           last_keepalive_time := now }

/-- Embeds `generate_silence_frame`. -/
def generate_silence_frame (size : ℕ) : List Int := List.replicate size 0

/-- Run `process` over a timestamped sequence of frames, collecting the
actions (with the time of each call) and the final suppressor state. -/
def processTrace (s : SilenceSuppressor) :
    List (ℕ × List Int) → List (ℕ × FrameAction) × SilenceSuppressor
  | [] => ([], s)
  | (t, f) :: rest =>
    let step := process s t f
    let tail := processTrace step.2 rest
    ((t, step.1) :: tail.1, tail.2)

/-- An action that reaches the sink (`Send` or `SendSilence`). -/
def isDelivery : FrameAction → Bool
  | .Suppress => false
  | _ => true

/-- The times of the calls whose action reached the sink. -/
def deliveryTimes (s : SilenceSuppressor) (events : List (ℕ × List Int)) :
    List ℕ :=
  ((processTrace s events).1.filter (fun p => isDelivery p.2)).map Prod.fst

/-! ### Equation lemmas and basic step lemmas about `process` -/

theorem process_speech_eq (s : SilenceSuppressor) (now : ℕ) (frame : List Int)
    (hsp : hasSpeech s.config frame = true) :
    process s now frame =
      (.Send frame,
        { s with state := .Active
                 last_speech_time := now
                 frames_sent := s.frames_sent + 1 }) := by
  unfold process
  rw [hsp]
  rfl

theorem process_suppressed_eq (s : SilenceSuppressor) (now : ℕ)
    (frame : List Int) (hsp : hasSpeech s.config frame = false)
    (hst : s.state = .Suppressed) :
    process s now frame = keepaliveCheck s now := by
  unfold process
  rw [hsp, hst]
  rfl

theorem process_fresh_eq (s : SilenceSuppressor) (now : ℕ) (frame : List Int)
    (hsp : hasSpeech s.config frame = false)
    (hst : s.state = .Active ∨ s.state = .Hangover) :
    process s now frame =
      if s.config.speech_hangover < now - s.last_speech_time then
        keepaliveCheck { s with state := .Suppressed } now
      else
        (.Send frame,
          { s with state := .Hangover, frames_sent := s.frames_sent + 1 }) := by
  unfold process
  rcases hst with h | h <;> rw [hsp, h] <;> rfl

theorem keepaliveCheck_silence_eq (s : SilenceSuppressor) (now : ℕ)
    (h : s.config.silence_keepalive_interval ≤ now - s.last_keepalive_time) :
    keepaliveCheck s now =
      (.SendSilence,
        { s with last_keepalive_time := now
                 frames_sent := s.frames_sent + 1 }) := by
  unfold keepaliveCheck
  rw [if_pos h]

theorem keepaliveCheck_suppress_eq (s : SilenceSuppressor) (now : ℕ)
    (h : ¬ s.config.silence_keepalive_interval ≤ now - s.last_keepalive_time) :
    keepaliveCheck s now =
      (.Suppress, { s with frames_suppressed := s.frames_suppressed + 1 }) := by
  unfold keepaliveCheck
  rw [if_neg h]

theorem keepaliveCheck_config (s : SilenceSuppressor) (now : ℕ) :
    (keepaliveCheck s now).2.config = s.config := by
  unfold keepaliveCheck
  split <;> rfl

theorem process_config (s : SilenceSuppressor) (now : ℕ) (frame : List Int) :
    (process s now frame).2.config = s.config := by
  cases hsp : hasSpeech s.config frame
  · cases hst : s.state
    case Suppressed => rw [process_suppressed_eq s now frame hsp hst,
      keepaliveCheck_config]
    all_goals
      rw [process_fresh_eq s now frame hsp (by simp [hst])]
      split
      · rw [keepaliveCheck_config]
      · rfl
  · rw [process_speech_eq s now frame hsp]

/-- If `process` suppresses the frame, the current time is strictly within one
keepalive interval of `last_keepalive_time`, and that timestamp is
unchanged. -/
theorem process_suppress_bound (s : SilenceSuppressor) (now : ℕ)
    (frame : List Int) (h : (process s now frame).1 = .Suppress) :
    now < s.last_keepalive_time + s.config.silence_keepalive_interval ∧
      (process s now frame).2.last_keepalive_time = s.last_keepalive_time := by
  cases hsp : hasSpeech s.config frame
  · cases hst : s.state
    case Suppressed =>
      rw [process_suppressed_eq s now frame hsp hst] at h ⊢
      by_cases hk : s.config.silence_keepalive_interval ≤
          now - s.last_keepalive_time
      · rw [keepaliveCheck_silence_eq s now hk] at h
        exact absurd h (by simp)
      · rw [keepaliveCheck_suppress_eq s now hk]
        exact ⟨by omega, rfl⟩
    all_goals
      rw [process_fresh_eq s now frame hsp (by simp [hst])] at h ⊢
      split at h <;> split <;> rename_i h1 h2
      · by_cases hk : s.config.silence_keepalive_interval ≤
            now - s.last_keepalive_time
        · rw [keepaliveCheck_silence_eq { s with state := .Suppressed }
            now hk] at h
          exact absurd h (by simp)
        · rw [keepaliveCheck_suppress_eq { s with state := .Suppressed }
            now hk]
          exact ⟨by omega, rfl⟩
      · omega
      · omega
      · exact absurd h (by simp)
  · rw [process_speech_eq s now frame hsp] at h
    exact absurd h (by simp)

/-- `process` never moves `last_keepalive_time` past the current time. -/
theorem process_lk_le (s : SilenceSuppressor) (now : ℕ) (frame : List Int)
    (h : s.last_keepalive_time ≤ now) :
    (process s now frame).2.last_keepalive_time ≤ now := by
  cases hsp : hasSpeech s.config frame
  · cases hst : s.state
    case Suppressed =>
      rw [process_suppressed_eq s now frame hsp hst]
      by_cases hk : s.config.silence_keepalive_interval ≤
          now - s.last_keepalive_time
      · rw [keepaliveCheck_silence_eq s now hk]
      · rw [keepaliveCheck_suppress_eq s now hk]
        exact h
    all_goals
      rw [process_fresh_eq s now frame hsp (by simp [hst])]
      split
      · by_cases hk : s.config.silence_keepalive_interval ≤
            now - s.last_keepalive_time
        · rw [keepaliveCheck_silence_eq { s with state := .Suppressed } now hk]
        · rw [keepaliveCheck_suppress_eq { s with state := .Suppressed } now hk]
          exact h
      · exact h
  · rw [process_speech_eq s now frame hsp]
    exact h

theorem processTrace_cons (s : SilenceSuppressor) (t : ℕ) (f : List Int)
    (rest : List (ℕ × List Int)) :
    processTrace s ((t, f) :: rest) =
      ((t, (process s t f).1) :: (processTrace (process s t f).2 rest).1,
        (processTrace (process s t f).2 rest).2) := rfl

theorem isDelivery_eq_false (a : FrameAction) :
    isDelivery a = false ↔ a = .Suppress := by
  cases a <;> simp [isDelivery]

theorem deliveryTimes_nil (s : SilenceSuppressor) : deliveryTimes s [] = [] :=
  rfl

theorem deliveryTimes_cons (s : SilenceSuppressor) (t : ℕ) (f : List Int)
    (rest : List (ℕ × List Int)) :
    deliveryTimes s ((t, f) :: rest) =
      if isDelivery (process s t f).1 then
        t :: deliveryTimes (process s t f).2 rest
      else
        deliveryTimes (process s t f).2 rest := by
  unfold deliveryTimes
  rw [processTrace_cons]
  rw [List.filter_cons]
  split <;> simp_all

/-- Exactly one of the two counters is incremented by each `process` call. -/
theorem process_counts (s : SilenceSuppressor) (now : ℕ) (frame : List Int) :
    ((process s now frame).2.frames_sent = s.frames_sent + 1 ∧
      (process s now frame).2.frames_suppressed = s.frames_suppressed) ∨
    ((process s now frame).2.frames_sent = s.frames_sent ∧
      (process s now frame).2.frames_suppressed = s.frames_suppressed + 1) := by
  cases hsp : hasSpeech s.config frame
  · cases hst : s.state
    case Suppressed =>
      rw [process_suppressed_eq s now frame hsp hst]
      by_cases hk : s.config.silence_keepalive_interval ≤
          now - s.last_keepalive_time
      · rw [keepaliveCheck_silence_eq s now hk]
        exact Or.inl ⟨rfl, rfl⟩
      · rw [keepaliveCheck_suppress_eq s now hk]
        exact Or.inr ⟨rfl, rfl⟩
    all_goals
      rw [process_fresh_eq s now frame hsp (by simp [hst])]
      split
      · by_cases hk : s.config.silence_keepalive_interval ≤
            now - s.last_keepalive_time
        · rw [keepaliveCheck_silence_eq { s with state := .Suppressed } now hk]
          exact Or.inl ⟨rfl, rfl⟩
        · rw [keepaliveCheck_suppress_eq { s with state := .Suppressed } now hk]
          exact Or.inr ⟨rfl, rfl⟩
      · exact Or.inl ⟨rfl, rfl⟩
  · rw [process_speech_eq s now frame hsp]
    exact Or.inl ⟨rfl, rfl⟩

/-! ### C1: speech frames are always sent immediately -/

/-- C1.  For every suppressor state and every frame whose RMS is at or above
`speech_threshold_rms`, `process` returns `Send` with that frame, sets the
state to `Active`, and sets `last_speech_time` to `now`, regardless of the
prior state. -/
theorem process_speech_always_send (s : SilenceSuppressor) (now : ℕ)
    (frame : List Int) (h : hasSpeech s.config frame = true) :
    process s now frame =
      (.Send frame,
        { s with state := .Active
                 last_speech_time := now
                 frames_sent := s.frames_sent + 1 }) := by
  unfold process
  simp [h]

/-- C1 witness: a loud frame (`[200]`, RMS 200 ≥ 100) processed from a
`Suppressed` state is sent immediately. -/
theorem process_speech_always_send_witness :
    hasSpeech (SilenceSuppressor.new .default 0).config [200] = true ∧
      process { SilenceSuppressor.new .default 0 with state := .Suppressed }
          7 [200] =
        (.Send [200],
          { { SilenceSuppressor.new .default 0 with state := .Suppressed } with
              state := .Active
              last_speech_time := 7
              frames_sent :=
                { SilenceSuppressor.new .default 0 with
                    state := .Suppressed }.frames_sent + 1 }) :=
  ⟨by decide,
    process_speech_always_send
      { SilenceSuppressor.new .default 0 with state := .Suppressed } 7 [200]
      (by decide)⟩

/-! ### C5: Active + silence -/

/-- C5 counterexample.  From state `Active` with a silent frame, the transition
is not unconditional: with `last_speech_time = 0`, `now = 301` and the
microphone preset (hangover 200, keepalive 100), `process` returns
`SendSilence` (state `Suppressed`), not `Send`. -/
theorem active_nonspeech_counterexample :
    hasSpeech (SilenceSuppressor.new .for_microphone 0).config [0] = false ∧
      (SilenceSuppressor.new .for_microphone 0).state = .Active ∧
      (process (SilenceSuppressor.new .for_microphone 0) 301 [0]).1 =
        .SendSilence ∧
      (process (SilenceSuppressor.new .for_microphone 0) 301 [0]).1 ≠
        .Send [0] ∧
      (process (SilenceSuppressor.new .for_microphone 0) 301 [0]).2.state =
        .Suppressed := by
  refine ⟨by decide, by decide, ?_, ?_, ?_⟩ <;> decide

/-- C5 amended.  In state `Active` with a below-threshold frame, `process`
transitions to `Hangover` and returns `Send` with that frame *provided*
`now − last_speech_time ≤ speech_hangover`; when the hangover has already
elapsed it instead transitions to `Suppressed` and falls through to the
keepalive rule. -/
theorem active_nonspeech_within_hangover_send (s : SilenceSuppressor)
    (now : ℕ) (frame : List Int)
    (hsp : hasSpeech s.config frame = false) (hst : s.state = .Active) :
    (now - s.last_speech_time ≤ s.config.speech_hangover →
      process s now frame =
        (.Send frame,
          { s with state := .Hangover, frames_sent := s.frames_sent + 1 })) ∧
    (s.config.speech_hangover < now - s.last_speech_time →
      process s now frame = keepaliveCheck { s with state := .Suppressed } now)
    := by
  constructor
  · intro hh
    rw [process_fresh_eq s now frame hsp (Or.inl hst), if_neg (by omega)]
  · intro hh
    rw [process_fresh_eq s now frame hsp (Or.inl hst), if_pos hh]

/-- C5 amended, witness: silent frame 100 time units after construction
(within the 200-unit hangover) is sent and moves the state to `Hangover`. -/
theorem active_nonspeech_within_hangover_send_witness :
    hasSpeech (SilenceSuppressor.new .for_microphone 0).config [0] = false ∧
      (SilenceSuppressor.new .for_microphone 0).state = .Active ∧
      100 - (SilenceSuppressor.new .for_microphone 0).last_speech_time ≤
        (SilenceSuppressor.new .for_microphone 0).config.speech_hangover ∧
      process (SilenceSuppressor.new .for_microphone 0) 100 [0] =
        (.Send [0],
          { SilenceSuppressor.new .for_microphone 0 with
              state := .Hangover
              frames_sent :=
                (SilenceSuppressor.new .for_microphone 0).frames_sent + 1 }) :=
  ⟨by decide, by decide, by decide,
    (active_nonspeech_within_hangover_send
      (SilenceSuppressor.new .for_microphone 0) 100 [0]
      (by decide) (by decide)).1 (by decide)⟩

/-! ### C9: reset touches only the state and the timestamps -/

/-- C9.  `reset` leaves `frames_sent`, `frames_suppressed` and the config
unchanged; it only sets the state to `Active` and both timestamps to `now`. -/
theorem reset_preserves_counters (s : SilenceSuppressor) (now : ℕ) :
    reset s now =
      { config := s.config
        state := .Active
        last_speech_time := now
        last_keepalive_time := now
        frames_sent := s.frames_sent
        frames_suppressed := s.frames_suppressed } := rfl

/-! ### C7: monotone counters -/

/-- C7.  Over any sequence of `process` calls, `frames_sent` and
`frames_suppressed` never decrease, their sum grows by exactly the number of
frames processed, and each single call increments exactly one of the two. -/
theorem suppressor_counter_invariants (s : SilenceSuppressor)
    (events : List (ℕ × List Int)) :
    s.frames_sent ≤ (processTrace s events).2.frames_sent ∧
    s.frames_suppressed ≤ (processTrace s events).2.frames_suppressed ∧
    (processTrace s events).2.frames_sent +
        (processTrace s events).2.frames_suppressed =
      s.frames_sent + s.frames_suppressed + events.length ∧
    ∀ (now : ℕ) (frame : List Int),
      ((process s now frame).2.frames_sent = s.frames_sent + 1 ∧
        (process s now frame).2.frames_suppressed = s.frames_suppressed) ∨
      ((process s now frame).2.frames_sent = s.frames_sent ∧
        (process s now frame).2.frames_suppressed = s.frames_suppressed + 1) := by
  induction events generalizing s with
  | nil =>
    exact ⟨le_refl _, le_refl _, rfl, fun now frame => process_counts s now frame⟩
  | cons e rest ih =>
    obtain ⟨t, f⟩ := e
    have hstep := process_counts s t f
    have h := ih (process s t f).2
    have hT : (processTrace s ((t, f) :: rest)).2 =
        (processTrace (process s t f).2 rest).2 := rfl
    rw [hT]
    refine ⟨?_, ?_, ?_, fun now frame => process_counts s now frame⟩
    · rcases hstep with ⟨h1, _⟩ | ⟨h1, _⟩ <;> omega
    · rcases hstep with ⟨_, h2⟩ | ⟨_, h2⟩ <;> omega
    · have hlen : ((t, f) :: rest).length = rest.length + 1 := rfl
      rcases hstep with ⟨h1, h2⟩ | ⟨h1, h2⟩ <;> omega

/-! ### C2: timing continuity under sustained silence -/

/-- Bounded-gap adjacency of the timestamped frames fed to the suppressor:
times are nondecreasing and consecutive frames are at most `gap` apart. -/
def timeStep (gap : ℕ) (p q : ℕ × List Int) : Prop :=
  p.1 ≤ q.1 ∧ q.1 ≤ p.1 + gap

instance (gap : ℕ) : DecidableRel (timeStep gap) := fun _ _ =>
  inferInstanceAs (Decidable (_ ∧ _))

/-- Spacing invariant carried through a silent run: prepend an anchor `a`
(the time of the last delivery, with `last_keepalive_time ≤ a`) and every
consecutive pair in the delivery-time list is at most
`keepalive interval + gap` apart. -/
theorem deliveryChain_aux (events : List (ℕ × List Int)) :
    ∀ (s : SilenceSuppressor) (a gap : ℕ),
      (∀ e ∈ events, hasSpeech s.config e.2 = false) →
      List.Chain' (timeStep gap) events →
      s.last_keepalive_time ≤ a →
      (∀ e1, events.head? = some e1 → s.last_keepalive_time ≤ e1.1) →
      (∀ e1, events.head? = some e1 →
        e1.1 ≤ a + s.config.silence_keepalive_interval + gap) →
      List.Chain'
        (fun x y : ℕ => y ≤ x + s.config.silence_keepalive_interval + gap)
        (a :: deliveryTimes s events) := by
  induction events with
  | nil =>
    intro s a gap _ _ _ _ _
    rw [deliveryTimes_nil]
    exact List.chain'_singleton a
  | cons e rest ih =>
    intro s a gap hns hch hka hk1 hhead
    obtain ⟨t, f⟩ := e
    have hcfg : (process s t f).2.config = s.config := process_config s t f
    have hkt : s.last_keepalive_time ≤ t := hk1 (t, f) rfl
    have hns' : ∀ e ∈ rest, hasSpeech (process s t f).2.config e.2 = false := by
      rw [hcfg]
      exact fun e he => hns e (List.mem_cons_of_mem _ he)
    have hch' : List.Chain' (timeStep gap) rest := hch.tail
    have hadj : ∀ e2, rest.head? = some e2 → t ≤ e2.1 ∧ e2.1 ≤ t + gap := by
      intro e2 h2
      cases rest with
      | nil => simp at h2
      | cons e2' rest' =>
        have := (List.chain'_cons.mp hch).1
        simp only [List.head?_cons, Option.some.injEq] at h2
        subst h2
        exact this
    rw [deliveryTimes_cons]
    by_cases hd : isDelivery (process s t f).1 = true
    · rw [if_pos hd]
      rw [List.chain'_cons]
      refine ⟨hhead (t, f) rfl, ?_⟩
      have hlk' : (process s t f).2.last_keepalive_time ≤ t :=
        process_lk_le s t f hkt
      have goal' := ih (process s t f).2 t gap hns' hch' hlk'
        (fun e2 h2 => le_trans hlk' (hadj e2 h2).1)
        (by
          intro e2 h2
          rw [hcfg]
          have := (hadj e2 h2).2
          omega)
      rw [hcfg] at goal'
      exact goal'
    · rw [if_neg hd]
      have hsupp : (process s t f).1 = .Suppress :=
        (isDelivery_eq_false _).mp (Bool.eq_false_iff.mpr hd)
      obtain ⟨hlt, hkeq⟩ := process_suppress_bound s t f hsupp
      have goal' := ih (process s t f).2 a gap hns' hch'
        (by rw [hkeq]; exact hka)
        (fun e2 h2 => by rw [hkeq]; exact le_trans hkt (hadj e2 h2).1)
        (by
          intro e2 h2
          rw [hcfg]
          have h1 := (hadj e2 h2).2
          omega)
      rw [hcfg] at goal'
      exact goal'

/-- C2.  Under a sustained sequence of below-threshold frames whose times are
nondecreasing with consecutive gaps at most one frame period `gap`, any two
consecutive deliveries to the sink (`Send` or `SendSilence`) are at most
`silence_keepalive_interval + gap` apart; moreover in the `Suppressed` state a
silent frame yields `SendSilence` exactly when
`now − last_keepalive_time ≥ silence_keepalive_interval` (updating
`last_keepalive_time` to `now`) and `Suppress` otherwise. -/
theorem silence_delivery_spacing (s0 : SilenceSuppressor)
    (events : List (ℕ × List Int)) (gap : ℕ)
    (hns : ∀ e ∈ events, hasSpeech s0.config e.2 = false)
    (hch : List.Chain' (timeStep gap) events)
    (hk0 : ∀ e ∈ events, s0.last_keepalive_time ≤ e.1) :
    List.Chain'
      (fun x y : ℕ => y ≤ x + s0.config.silence_keepalive_interval + gap)
      (deliveryTimes s0 events) ∧
    ∀ (s : SilenceSuppressor) (now : ℕ) (frame : List Int),
      s.state = .Suppressed → hasSpeech s.config frame = false →
      (s.config.silence_keepalive_interval ≤ now - s.last_keepalive_time →
        process s now frame =
          (.SendSilence,
            { s with last_keepalive_time := now
                     frames_sent := s.frames_sent + 1 })) ∧
      (now - s.last_keepalive_time < s.config.silence_keepalive_interval →
        process s now frame =
          (.Suppress,
            { s with frames_suppressed := s.frames_suppressed + 1 })) := by
  constructor
  · cases events with
    | nil => exact List.chain'_nil
    | cons e rest =>
      have h := deliveryChain_aux (e :: rest) s0 e.1 gap hns hch
        (hk0 e (List.mem_cons_self e rest))
        (by
          intro e1 h1
          simp only [List.head?_cons, Option.some.injEq] at h1
          subst h1
          exact hk0 e (List.mem_cons_self e rest))
        (by
          intro e1 h1
          simp only [List.head?_cons, Option.some.injEq] at h1
          subst h1
          omega)
      exact h.tail
  · intro s now frame hst hsp
    constructor
    · intro hk
      rw [process_suppressed_eq s now frame hsp hst,
        keepaliveCheck_silence_eq s now hk]
    · intro hk
      rw [process_suppressed_eq s now frame hsp hst,
        keepaliveCheck_suppress_eq s now (by omega)]

/-- C2 witness: two silent frames at times 20 and 40 (gap 20) from a fresh
microphone-preset suppressor satisfy the hypotheses, so the delivery spacing
bound holds for them. -/
theorem silence_delivery_spacing_witness :
    (∀ e ∈ [((20 : ℕ), [(0 : ℤ)]), (40, [0])],
      hasSpeech (SilenceSuppressor.new .for_microphone 0).config e.2 = false) ∧
    List.Chain' (timeStep 20) [((20 : ℕ), [(0 : ℤ)]), (40, [0])] ∧
    (∀ e ∈ [((20 : ℕ), [(0 : ℤ)]), (40, [0])],
      (SilenceSuppressor.new .for_microphone 0).last_keepalive_time ≤ e.1) ∧
    (List.Chain'
      (fun x y : ℕ =>
        y ≤ x +
          (SilenceSuppressor.new
            .for_microphone 0).config.silence_keepalive_interval + 20)
      (deliveryTimes (SilenceSuppressor.new .for_microphone 0)
        [((20 : ℕ), [(0 : ℤ)]), (40, [0])]) ∧
    ∀ (s : SilenceSuppressor) (now : ℕ) (frame : List Int),
      s.state = .Suppressed → hasSpeech s.config frame = false →
      (s.config.silence_keepalive_interval ≤ now - s.last_keepalive_time →
        process s now frame =
          (.SendSilence,
            { s with last_keepalive_time := now
                     frames_sent := s.frames_sent + 1 })) ∧
      (now - s.last_keepalive_time < s.config.silence_keepalive_interval →
        process s now frame =
          (.Suppress,
            { s with frames_suppressed := s.frames_suppressed + 1 }))) :=
  ⟨by decide,
    List.chain'_cons.mpr ⟨by decide, List.chain'_singleton _⟩,
    by decide,
    silence_delivery_spacing (SilenceSuppressor.new .for_microphone 0)
      [((20 : ℕ), [(0 : ℤ)]), (40, [0])] 20
      (by decide)
      (List.chain'_cons.mpr ⟨by decide, List.chain'_singleton _⟩)
      (by decide)⟩

/-! ## Streams and `take_consumer`
(src/native-module/src/microphone.rs, speaker/core_audio.rs, speaker/sck.rs,
speaker/macos.rs)

The ring-buffer consumer half (`HeapCons<f32>`) is abstracted to an opaque
`Nat` handle: the code only wraps it in an `Option` and `Option::take`s it. -/

/-- Embeds the `consumer`/`sample_rate`/`is_running` state of
`MicrophoneStream` (the `cpal::Stream` handle carries no claim-relevant
state). -/
structure MicrophoneStream where
  consumer : Option ℕ
  sample_rate : ℕ
  is_running : Bool
deriving DecidableEq

/-- Embeds `MicrophoneStream::take_consumer` (`self.consumer.take()`):
returns the stored consumer and leaves `None` behind. -/
def MicrophoneStream.take_consumer (s : MicrophoneStream) :
    Option ℕ × MicrophoneStream :=
  (s.consumer, { s with consumer := none })

/-- Embeds the claim-relevant state of `core_audio::SpeakerStream`. -/
structure CoreAudioSpeakerStream where
  consumer : Option ℕ
  sample_rate : ℕ
deriving DecidableEq

/-- Embeds `core_audio::SpeakerStream::take_consumer`. -/
def CoreAudioSpeakerStream.take_consumer (s : CoreAudioSpeakerStream) :
    Option ℕ × CoreAudioSpeakerStream :=
  (s.consumer, { s with consumer := none })

/-- Embeds the claim-relevant state of `sck::SpeakerStream`. -/
structure SckSpeakerStream where
  consumer : Option ℕ
  sample_rate : ℕ
deriving DecidableEq

/-- Embeds `sck::SpeakerStream::take_consumer`. -/
def SckSpeakerStream.take_consumer (s : SckSpeakerStream) :
    Option ℕ × SckSpeakerStream :=
  (s.consumer, { s with consumer := none })

/-- Embeds `enum BackendStream` of `speaker/macos.rs`. -/
inductive BackendStream where
  | CoreAudio (s : CoreAudioSpeakerStream)
  | Sck (s : SckSpeakerStream)
deriving DecidableEq

/-- Embeds `macos::SpeakerStream` (wrapper over the two backends). -/
structure SpeakerStream where
  backend : BackendStream
deriving DecidableEq

/-- Embeds `macos::SpeakerStream::take_consumer`, dispatching to the backend's
`take_consumer`. -/
def SpeakerStream.take_consumer (s : SpeakerStream) :
    Option ℕ × SpeakerStream :=
  match s.backend with
  | .CoreAudio c => ((c.take_consumer).1, ⟨.CoreAudio (c.take_consumer).2⟩)
  | .Sck c => ((c.take_consumer).1, ⟨.Sck (c.take_consumer).2⟩)

/-- `n` successive `take_consumer` calls on a microphone stream. -/
def micTakeIter (s : MicrophoneStream) : ℕ → MicrophoneStream
  | 0 => s
  | n + 1 => ((micTakeIter s n).take_consumer).2

/-- `n` successive `take_consumer` calls on a core-audio speaker stream. -/
def coreTakeIter (s : CoreAudioSpeakerStream) : ℕ → CoreAudioSpeakerStream
  | 0 => s
  | n + 1 => ((coreTakeIter s n).take_consumer).2

/-- `n` successive `take_consumer` calls on a screen-capture speaker
stream. -/
def sckTakeIter (s : SckSpeakerStream) : ℕ → SckSpeakerStream
  | 0 => s
  | n + 1 => ((sckTakeIter s n).take_consumer).2

/-- `n` successive `take_consumer` calls on a macos speaker stream. -/
def speakerTakeIter (s : SpeakerStream) : ℕ → SpeakerStream
  | 0 => s
  | n + 1 => ((speakerTakeIter s n).take_consumer).2

/-! ### C10: `take_consumer` returns `Some` at most once -/

/-- C10.  On every stream type, the first `take_consumer` returns the stored
consumer, and after any call every subsequent call returns `none`. -/
theorem take_consumer_at_most_once :
    (∀ m : MicrophoneStream, (m.take_consumer).1 = m.consumer) ∧
    (∀ (m : MicrophoneStream) (n : ℕ),
      ((micTakeIter m (n + 1)).take_consumer).1 = none) ∧
    (∀ (c : CoreAudioSpeakerStream) (n : ℕ),
      ((coreTakeIter c (n + 1)).take_consumer).1 = none) ∧
    (∀ (c : SckSpeakerStream) (n : ℕ),
      ((sckTakeIter c (n + 1)).take_consumer).1 = none) ∧
    (∀ (sp : SpeakerStream) (n : ℕ),
      ((speakerTakeIter sp (n + 1)).take_consumer).1 = none) := by
  refine ⟨fun m => rfl, fun m n => rfl, fun c n => rfl, fun c n => rfl, ?_⟩
  intro sp n
  have hiter : speakerTakeIter sp (n + 1) =
      ((speakerTakeIter sp n).take_consumer).2 := rfl
  rw [hiter]
  rcases hb : (speakerTakeIter sp n).backend with c | c <;>
    simp [SpeakerStream.take_consumer, CoreAudioSpeakerStream.take_consumer,
      SckSpeakerStream.take_consumer, hb]

/-! ## Microphone device selection (src/native-module/src/microphone.rs) -/

/-- The cpal host as seen by `MicrophoneStream::new`: a possible default input
device and the list of input devices, each named by its identifier. -/
structure AudioHost where
  default_input : Option String
  input_devices : List String
deriving DecidableEq

/-- Embeds the device-selection step of `MicrophoneStream::new`: the
`_device_id` parameter is bound but never read, so the host default input
device is selected unconditionally
(`host.default_input_device().ok_or_else(...)`).  Only the selection step is
modelled: after it, `new` can still fail on format negotiation
(`default_input_config`) or stream construction (`build_input_stream`,
unsupported sample formats); those later error paths are independent of the
device id and outside this model. -/
def micSelectDevice (host : AudioHost) (_device_id : Option String) :
    Except String String :=
  match host.default_input with
  | some d => .ok d
  | none => .error "No input device found"

/-! ### C8: device id and selection -/

/-- C8 counterexample.  With a host whose default input is `Built-in` and
whose device list contains `USB Mic`, opening with id `USB Mic` still selects
`Built-in`: the caller-provided id is ignored even when a device matches
it. -/
theorem mic_device_id_ignored_counterexample :
    micSelectDevice
        { default_input := some "Built-in"
          input_devices := ["Built-in", "USB Mic"] } (some "USB Mic") =
      .ok "Built-in" ∧
    "USB Mic" ∈
      ["Built-in", "USB Mic"] ∧
    ("Built-in" : String) ≠ "USB Mic" := by
  refine ⟨rfl, by decide, by decide⟩

/-- C8 amended.  The device-selection step of `MicrophoneStream::new` ignores
the caller-provided device id entirely: selection returns the same result for
every id, selects the host's default input device whenever one exists, and
fails with `No input device found` when there is none.  (Construction can
still fail after selection — format negotiation or stream construction — and
those failures are not part of this claim.) -/
theorem mic_select_default (host : AudioHost) (device_id alt_id : Option String) :
    micSelectDevice host device_id = micSelectDevice host alt_id ∧
    (∀ d, host.default_input = some d →
      micSelectDevice host device_id = .ok d) ∧
    (host.default_input = none →
      micSelectDevice host device_id = .error "No input device found") := by
  refine ⟨rfl, ?_, ?_⟩
  · intro d hd
    unfold micSelectDevice
    rw [hd]
  · intro hd
    unfold micSelectDevice
    rw [hd]

/-- C8 amended, witness: on the counterexample host the default `Built-in` is
selected despite the id `USB Mic`. -/
theorem mic_select_default_witness :
    micSelectDevice
        { default_input := some "Built-in"
          input_devices := ["Built-in", "USB Mic"] } (some "USB Mic") =
      .ok "Built-in" :=
  (mic_select_default
      { default_input := some "Built-in"
        input_devices := ["Built-in", "USB Mic"] }
      (some "USB Mic") none).2.1 "Built-in" rfl

/-! ## Streaming resampler (src/native-module/src/streaming_resampler.rs)

`f32`/`f64` arithmetic is embedded as exact rational arithmetic.  The `while`
loop of `resample` is `emitLoop`; its guard carries `0 < ratio` (without which
the Rust loop would not terminate; the constructor always produces a positive
ratio from positive rates) and `0 ≤ pos` (when `pos` is negative the code's
`pos.floor() as usize` wraps to a huge index and both `break` arms fire, so the
loop stops exactly as the `else` branch here does; reachable states always
have `0 ≤ pos`). -/

/-- Embeds `struct StreamingResampler`. -/
structure StreamingResampler where
  ratio : ℚ
  fractional_pos : ℚ
  prev_sample : ℚ
  initialized : Bool
deriving DecidableEq

/-- Embeds `StreamingResampler::new`. -/
def StreamingResampler.new (input_sample_rate output_sample_rate : ℚ) :
    StreamingResampler :=
  { ratio := input_sample_rate / output_sample_rate
    fractional_pos := 0
    prev_sample := 0
    initialized := false }

/-- Rust `as i16` on a float already clamped into i16 range: truncation
toward zero. -/
def truncToZero (q : ℚ) : ℤ := if 0 ≤ q then ⌊q⌋ else ⌈q⌉

/-- Embeds `(interpolated * 32767.0).clamp(-32768.0, 32767.0) as i16`. -/
def quantizeSample (x : ℚ) : ℤ :=
  truncToZero (max (-32768) (min 32767 (x * 32767)))

/-- The loop body of `StreamingResampler::resample` at position `p`: endpoint
selection (`prev` at a chunk's leading edge, last-sample hold at the right
edge) and linear interpolation `a + frac * (b - a)`. -/
def interpAt (input : List ℚ) (prev : ℚ) (p : ℚ) : ℚ :=
  let idx : ℕ := (⌊p⌋).toNat
  let frac : ℚ := p - (idx : ℚ)
  let sample_a : ℚ :=
    if idx = 0 ∧ frac < 1 / 1000 then prev else input.getD idx 0
  let sample_b : ℚ :=
    if idx + 1 < input.length then input.getD (idx + 1) 0 else input.getD idx 0
  sample_a + frac * (sample_b - sample_a)

/-- The `while self.fractional_pos < input.len()` loop of `resample`: emits
one quantized sample per iteration and advances the position by `ratio`;
returns the emitted samples and the final position. -/
def emitLoop (R : ℚ) (input : List ℚ) (prev : ℚ) (p : ℚ) : List ℤ × ℚ :=
  if h : 0 < R ∧ 0 ≤ p ∧ p < (input.length : ℚ) then
    let rest := emitLoop R input prev (p + R)
    (quantizeSample (interpAt input prev p) :: rest.1, rest.2)
  else ([], p)
termination_by (⌈(((input.length : ℚ)) - p) / R⌉).toNat
decreasing_by
  have hR : (0 : ℚ) < R := h.1
  have hpN : p < (input.length : ℚ) := h.2.2
  have hR0 : R ≠ 0 := ne_of_gt hR
  have e1 : ((input.length : ℚ) - (p + R)) / R =
      ((input.length : ℚ) - p) / R - 1 := by
    rw [show (input.length : ℚ) - (p + R) = ((input.length : ℚ) - p) - R by
      ring]
    rw [sub_div, div_self hR0]
  have e3 : 0 < ⌈((input.length : ℚ) - p) / R⌉ :=
    Int.ceil_pos.mpr (div_pos (by linarith) hR)
  simp only [e1, Int.ceil_sub_one]
  omega

/-- Embeds `StreamingResampler::resample`: empty input returns immediately;
otherwise the first call latches `prev_sample = input[0]`, the loop runs, `N`
is subtracted from the position, and the last input sample is stored. -/
def StreamingResampler.resample (st : StreamingResampler) (input : List ℚ) :
    List ℤ × StreamingResampler :=
  if input.isEmpty then ([], st)
  else
    ((emitLoop st.ratio input
        (if st.initialized then st.prev_sample else input.headD 0)
        st.fractional_pos).1,
      { st with
          fractional_pos :=
            (emitLoop st.ratio input
              (if st.initialized then st.prev_sample else input.headD 0)
              st.fractional_pos).2 - (input.length : ℚ)
          prev_sample := input.getLastD 0
          initialized := true })

/-- Embeds `StreamingResampler::reset`. -/
def StreamingResampler.reset (st : StreamingResampler) : StreamingResampler :=
  { st with fractional_pos := 0, prev_sample := 0, initialized := false }

/-- Feed a sequence of chunks through a resampler, concatenating the
outputs. -/
def resampleChunks (st : StreamingResampler) :
    List (List ℚ) → List ℤ × StreamingResampler
  | [] => ([], st)
  | c :: rest =>
    let r := st.resample c
    let r2 := resampleChunks r.2 rest
    (r.1 ++ r2.1, r2.2)

/-- The number of loop iterations from position `p` over `N` input samples:
the positions visited are `p, p+R, p+2R, …` while `< N`. -/
def emitCount (R : ℚ) (N : ℕ) (p : ℚ) : ℕ := (⌈((N : ℚ) - p) / R⌉).toNat

theorem emitLoop_step (R : ℚ) (input : List ℚ) (prev p : ℚ) (h1 : 0 < R)
    (h2 : 0 ≤ p) (h3 : p < (input.length : ℚ)) :
    emitLoop R input prev p =
      (quantizeSample (interpAt input prev p) ::
        (emitLoop R input prev (p + R)).1,
        (emitLoop R input prev (p + R)).2) := by
  rw [emitLoop, dif_pos ⟨h1, h2, h3⟩]

theorem emitLoop_stop (R : ℚ) (input : List ℚ) (prev p : ℚ)
    (h : ¬(0 < R ∧ 0 ≤ p ∧ p < (input.length : ℚ))) :
    emitLoop R input prev p = ([], p) := by
  rw [emitLoop, dif_neg h]

theorem emitCount_succ (R : ℚ) (N : ℕ) (p : ℚ) (hR : 0 < R)
    (hpN : p < (N : ℚ)) :
    emitCount R N p = emitCount R N (p + R) + 1 := by
  unfold emitCount
  have hR0 : R ≠ 0 := ne_of_gt hR
  have e1 : ((N : ℚ) - (p + R)) / R = ((N : ℚ) - p) / R - 1 := by
    rw [show (N : ℚ) - (p + R) = ((N : ℚ) - p) - R by ring]
    rw [sub_div, div_self hR0]
  have e3 : 0 < ⌈((N : ℚ) - p) / R⌉ :=
    Int.ceil_pos.mpr (div_pos (by linarith) hR)
  rw [e1, Int.ceil_sub_one]
  omega

theorem emitCount_zero (R : ℚ) (N : ℕ) (p : ℚ) (hR : 0 < R)
    (hpN : (N : ℚ) ≤ p) : emitCount R N p = 0 := by
  unfold emitCount
  have h1 : ((N : ℚ) - p) / R ≤ 0 :=
    div_nonpos_iff.mpr (Or.inr ⟨by linarith, le_of_lt hR⟩)
  have h2 : ⌈((N : ℚ) - p) / R⌉ ≤ 0 := by
    rw [Int.ceil_le]
    exact_mod_cast h1
  omega

/-- The loop emits exactly `emitCount` samples and stops at position
`p + emitCount · R`. -/
theorem emitLoop_spec (R : ℚ) (input : List ℚ) (prev p : ℚ) (hR : 0 < R)
    (hp : 0 ≤ p) :
    (emitLoop R input prev p).1.length = emitCount R input.length p ∧
      (emitLoop R input prev p).2 =
        p + (emitCount R input.length p : ℚ) * R := by
  suffices H : ∀ (m : ℕ) (q : ℚ), emitCount R input.length q ≤ m → 0 ≤ q →
      (emitLoop R input prev q).1.length = emitCount R input.length q ∧
        (emitLoop R input prev q).2 =
          q + (emitCount R input.length q : ℚ) * R by
    exact H (emitCount R input.length p) p le_rfl hp
  intro m
  induction m with
  | zero =>
    intro q hle hq
    have hc0 : emitCount R input.length q = 0 := Nat.le_zero.mp hle
    have hqN : ¬ q < (input.length : ℚ) := by
      intro hlt
      have := emitCount_succ R input.length q hR hlt
      omega
    rw [emitLoop_stop R input prev q (by
      intro hcon
      exact hqN hcon.2.2)]
    constructor
    · simpa using hc0.symm
    · rw [hc0]
      push_cast
      ring
  | succ m ih =>
    intro q hle hq
    by_cases hqN : q < (input.length : ℚ)
    · have hsucc := emitCount_succ R input.length q hR hqN
      have hq' : (0 : ℚ) ≤ q + R := by linarith
      obtain ⟨hlen, hpos⟩ := ih (q + R) (by omega) hq'
      rw [emitLoop_step R input prev q hR hq hqN]
      constructor
      · simp only [List.length_cons, hlen]
        omega
      · simp only [hpos, hsucc]
        push_cast
        ring
    · have hc0 : emitCount R input.length q = 0 :=
        emitCount_zero R input.length q hR (not_lt.mp hqN)
      rw [emitLoop_stop R input prev q (fun hcon => hqN hcon.2.2)]
      constructor
      · simpa using hc0.symm
      · rw [hc0]
        push_cast
        ring

/-- The loop consumes at least up to the end of the input:
`N − p ≤ emitCount · R`. -/
theorem emitCount_ge (R : ℚ) (N : ℕ) (p : ℚ) (hR : 0 < R) :
    (N : ℚ) - p ≤ (emitCount R N p : ℚ) * R := by
  by_cases hpN : p < (N : ℚ)
  · have hx : 0 < ((N : ℚ) - p) / R := div_pos (by linarith) hR
    have h1 : ((N : ℚ) - p) / R ≤ (⌈((N : ℚ) - p) / R⌉ : ℚ) := Int.le_ceil _
    have h2 : ((emitCount R N p : ℕ) : ℚ) = (⌈((N : ℚ) - p) / R⌉ : ℚ) := by
      unfold emitCount
      have hnn : 0 ≤ ⌈((N : ℚ) - p) / R⌉ := le_of_lt (Int.ceil_pos.mpr hx)
      exact_mod_cast congrArg (Int.cast : ℤ → ℚ) (Int.toNat_of_nonneg hnn)
    rw [h2]
    have h3 : ((N : ℚ) - p) / R * R ≤ (⌈((N : ℚ) - p) / R⌉ : ℚ) * R :=
      mul_le_mul_of_nonneg_right h1 (le_of_lt hR)
    rw [div_mul_cancel₀ _ (ne_of_gt hR)] at h3
    exact h3
  · have h4 : (0 : ℚ) ≤ (emitCount R N p : ℚ) * R :=
      mul_nonneg (by positivity) (le_of_lt hR)
    push_neg at hpN
    linarith

theorem resample_nil (st : StreamingResampler) : st.resample [] = ([], st) :=
  rfl

theorem resample_ratio (st : StreamingResampler) (input : List ℚ) :
    (st.resample input).2.ratio = st.ratio := by
  unfold StreamingResampler.resample
  split <;> rfl

/-- `resample` on a nonempty chunk: output length is `emitCount`, and the new
state carries position `pos + emitCount·R − N`, the chunk's last sample, and
the initialized flag. -/
theorem resample_spec (st : StreamingResampler) (input : List ℚ)
    (hne : input ≠ []) (hR : 0 < st.ratio) (hp : 0 ≤ st.fractional_pos) :
    (st.resample input).1.length =
      emitCount st.ratio input.length st.fractional_pos ∧
    (st.resample input).2 =
      { ratio := st.ratio
        fractional_pos := st.fractional_pos +
          (emitCount st.ratio input.length st.fractional_pos : ℚ) * st.ratio -
          (input.length : ℚ)
        prev_sample := input.getLastD 0
        initialized := true } := by
  have hie : ¬ input.isEmpty = true := by simp [hne]
  obtain ⟨h1, h2⟩ := emitLoop_spec st.ratio input
    (if st.initialized then st.prev_sample else input.headD 0)
    st.fractional_pos hR hp
  unfold StreamingResampler.resample
  rw [if_neg hie]
  exact ⟨h1, by rw [h2]⟩

theorem resample_pos_nonneg (st : StreamingResampler) (input : List ℚ)
    (hne : input ≠ []) (hR : 0 < st.ratio) (hp : 0 ≤ st.fractional_pos) :
    0 ≤ (st.resample input).2.fractional_pos := by
  obtain ⟨_, h2⟩ := resample_spec st input hne hR hp
  rw [h2]
  have := emitCount_ge st.ratio input.length st.fractional_pos hR
  simp only
  linarith

theorem getLastD_append_right (xs ys : List ℚ) (h : ys ≠ []) :
    (xs ++ ys).getLastD 0 = ys.getLastD 0 := by
  rw [List.getLastD_eq_getLast?, List.getLastD_eq_getLast?,
    List.getLast?_append_of_ne_nil xs h]

/-- Additivity of the iteration count across an input split, with the carried
position. -/
theorem emitCount_append (R : ℚ) (hR : 0 < R) (Nx Ny : ℕ) (p : ℚ) :
    emitCount R (Nx + Ny) p =
      emitCount R Nx p +
        emitCount R Ny (p + (emitCount R Nx p : ℚ) * R - (Nx : ℚ)) := by
  unfold emitCount
  have hR0 : R ≠ 0 := ne_of_gt hR
  set A : ℤ := ⌈((Nx : ℚ) - p) / R⌉ with hA
  set B : ℤ := ⌈(((Nx : ℕ) + (Ny : ℕ) : ℕ) - p) / R⌉ with hB
  have hAB : A ≤ B := by
    rw [hA, hB]
    apply Int.ceil_le_ceil
    rw [div_le_div_iff_of_pos_right hR]
    push_cast
    linarith [Nat.cast_nonneg (α := ℚ) Ny]
  have harg : ((Ny : ℚ) - (p + ((A.toNat : ℕ) : ℚ) * R - (Nx : ℚ))) / R =
      (((Nx + Ny : ℕ) : ℚ) - p) / R - ((A.toNat : ℕ) : ℚ) := by
    rw [show ((Ny : ℚ) - (p + ((A.toNat : ℕ) : ℚ) * R - (Nx : ℚ))) =
        ((((Nx + Ny : ℕ) : ℚ) - p) - ((A.toNat : ℕ) : ℚ) * R) by
      push_cast; ring]
    rw [sub_div, mul_div_assoc, div_self hR0, mul_one]
  rw [harg]
  have hcast : (((A.toNat : ℕ) : ℚ)) = ((A.toNat : ℤ) : ℚ) := by push_cast; rfl
  rw [hcast, Int.ceil_sub_int]
  omega

/-- Splitting one `resample` call into two consecutive calls preserves the
total output length and the final resampler state. -/
theorem resample_append (st : StreamingResampler) (xs ys : List ℚ)
    (hxs : xs ≠ []) (hR : 0 < st.ratio) (hp : 0 ≤ st.fractional_pos) :
    (st.resample (xs ++ ys)).1.length =
      (st.resample xs).1.length + (((st.resample xs).2).resample ys).1.length ∧
    (st.resample (xs ++ ys)).2 = (((st.resample xs).2).resample ys).2 := by
  by_cases hys : ys = []
  · subst hys
    rw [List.append_nil, resample_nil]
    exact ⟨rfl, rfl⟩
  · have hxys : xs ++ ys ≠ [] := by simp [hxs]
    obtain ⟨l1, s1⟩ := resample_spec st xs hxs hR hp
    have hr1 : ((st.resample xs).2).ratio = st.ratio := resample_ratio st xs
    have hp1 : 0 ≤ ((st.resample xs).2).fractional_pos :=
      resample_pos_nonneg st xs hxs hR hp
    obtain ⟨l2, s2⟩ := resample_spec ((st.resample xs).2) ys hys
      (hr1 ▸ hR) hp1
    obtain ⟨lT, sT⟩ := resample_spec st (xs ++ ys) hxys hR hp
    have hpos1 : ((st.resample xs).2).fractional_pos =
        st.fractional_pos +
          (emitCount st.ratio xs.length st.fractional_pos : ℚ) * st.ratio -
          (xs.length : ℚ) := by rw [s1]
    have hcnt : emitCount st.ratio (xs.length + ys.length) st.fractional_pos =
        emitCount st.ratio xs.length st.fractional_pos +
          emitCount st.ratio ys.length
            (st.fractional_pos +
              (emitCount st.ratio xs.length st.fractional_pos : ℚ) *
                st.ratio - (xs.length : ℚ)) :=
      emitCount_append st.ratio hR xs.length ys.length st.fractional_pos
    constructor
    · rw [lT, l1, l2, hr1, hpos1, List.length_append, hcnt]
    · rw [sT, s2]
      have hlast : (xs ++ ys).getLastD 0 = ys.getLastD 0 :=
        getLastD_append_right xs ys hys
      rw [StreamingResampler.mk.injEq]
      refine ⟨hr1.symm, ?_, hlast, rfl⟩
      rw [hr1, hpos1, List.length_append, hcnt]
      push_cast
      ring

theorem resampleChunks_cons (st : StreamingResampler) (c : List ℚ)
    (rest : List (List ℚ)) :
    resampleChunks st (c :: rest) =
      ((st.resample c).1 ++ (resampleChunks (st.resample c).2 rest).1,
        (resampleChunks (st.resample c).2 rest).2) := rfl

/-- Chunked and whole runs agree in output length and final state (helper
shared by the chunking and rate-correctness results). -/
theorem resampleChunks_flatten_spec (chunks : List (List ℚ))
    (st : StreamingResampler) (hR : 0 < st.ratio)
    (hp : 0 ≤ st.fractional_pos) (hne : ∀ c ∈ chunks, c ≠ []) :
    (resampleChunks st chunks).1.length = (st.resample chunks.flatten).1.length ∧
    (resampleChunks st chunks).2 = (st.resample chunks.flatten).2 := by
  induction chunks generalizing st with
  | nil => exact ⟨rfl, rfl⟩
  | cons c rest ih =>
    have hc : c ≠ [] := hne c (List.mem_cons_self c rest)
    have happ := resample_append st c rest.flatten hc hR hp
    have hr1 := resample_ratio st c
    have hp1 := resample_pos_nonneg st c hc hR hp
    have ihr := ih ((st.resample c).2) (hr1 ▸ hR) hp1
      (fun d hd => hne d (List.mem_cons_of_mem c hd))
    constructor
    · rw [resampleChunks_cons]
      show ((st.resample c).1 ++ (resampleChunks (st.resample c).2 rest).1).length = _
      rw [List.length_append, List.flatten_cons, happ.1, ihr.1]
    · rw [resampleChunks_cons]
      show (resampleChunks (st.resample c).2 rest).2 = _
      rw [List.flatten_cons, happ.2, ihr.2]

/-! ### C3: chunking independence -/

/-- C3 amended.  Feeding any sequence of non-empty chunks equals feeding the
concatenation in output length and in the final resampler state (fractional
position, stored previous sample, initialized flag, ratio); the emitted
sample values may differ near chunk boundaries. -/
theorem resample_chunking_length_state (chunks : List (List ℚ))
    (st : StreamingResampler) (hR : 0 < st.ratio)
    (hp : 0 ≤ st.fractional_pos) (hne : ∀ c ∈ chunks, c ≠ []) :
    (resampleChunks st chunks).1.length = (st.resample chunks.flatten).1.length ∧
    (resampleChunks st chunks).2 = (st.resample chunks.flatten).2 :=
  resampleChunks_flatten_spec chunks st hR hp hne

/-- C3 amended, witness: two chunks `[0]`, `[1/2]` on a fresh
`(16000, 16000)` resampler. -/
theorem resample_chunking_length_state_witness :
    (0 : ℚ) < (StreamingResampler.new 16000 16000).ratio ∧
    (0 : ℚ) ≤ (StreamingResampler.new 16000 16000).fractional_pos ∧
    (∀ c ∈ [[(0 : ℚ)], [1 / 2]], c ≠ []) ∧
    ((resampleChunks (StreamingResampler.new 16000 16000)
        [[(0 : ℚ)], [1 / 2]]).1.length =
      ((StreamingResampler.new 16000 16000).resample
        ([[(0 : ℚ)], [1 / 2]].flatten)).1.length ∧
    (resampleChunks (StreamingResampler.new 16000 16000)
        [[(0 : ℚ)], [1 / 2]]).2 =
      ((StreamingResampler.new 16000 16000).resample
        ([[(0 : ℚ)], [1 / 2]].flatten)).2) :=
  ⟨by norm_num [StreamingResampler.new], le_rfl, by simp,
    resample_chunking_length_state [[(0 : ℚ)], [1 / 2]]
      (StreamingResampler.new 16000 16000)
      (by norm_num [StreamingResampler.new]) le_rfl (by simp)⟩

/-! ### C6: rate correctness -/

/-- C6.  A fresh resampler at rates `(Fin, 16000)` fed chunks totalling `N`
samples emits `⌊N · 16000 / Fin⌋` or `⌊N · 16000 / Fin⌋ + 1` output samples,
hence within `±1` of `⌊N · 16000 / Fin⌋`. -/
theorem resample_rate_correctness (Fin : ℚ) (chunks : List (List ℚ))
    (hF : 0 < Fin) (hne : ∀ c ∈ chunks, c ≠ []) :
    ⌊(chunks.flatten.length : ℚ) * 16000 / Fin⌋ ≤
      ((resampleChunks (StreamingResampler.new Fin 16000) chunks).1.length : ℤ) ∧
    ((resampleChunks (StreamingResampler.new Fin 16000) chunks).1.length : ℤ) ≤
      ⌊(chunks.flatten.length : ℚ) * 16000 / Fin⌋ + 1 ∧
    |((resampleChunks (StreamingResampler.new Fin 16000) chunks).1.length : ℤ) -
      ⌊(chunks.flatten.length : ℚ) * 16000 / Fin⌋| ≤ 1 := by
  have hRnew : (StreamingResampler.new Fin 16000).ratio = Fin / 16000 := rfl
  have hR : 0 < (StreamingResampler.new Fin 16000).ratio := by
    rw [hRnew]
    positivity
  have hp : (0 : ℚ) ≤ (StreamingResampler.new Fin 16000).fractional_pos :=
    le_refl 0
  obtain ⟨hlen, _⟩ := resampleChunks_flatten_spec chunks
    (StreamingResampler.new Fin 16000) hR hp hne
  by_cases hj : chunks.flatten = []
  · rw [hlen, hj, resample_nil]
    simp
  · obtain ⟨hlen2, _⟩ := resample_spec (StreamingResampler.new Fin 16000)
      chunks.flatten hj hR hp
    rw [hlen, hlen2]
    have hq : ((chunks.flatten.length : ℚ) - (StreamingResampler.new
        Fin 16000).fractional_pos) / (StreamingResampler.new Fin 16000).ratio =
        (chunks.flatten.length : ℚ) * 16000 / Fin := by
      rw [hRnew]
      show ((chunks.flatten.length : ℚ) - 0) / (Fin / 16000) = _
      rw [sub_zero, div_div_eq_mul_div]
    unfold emitCount
    rw [hq]
    have hnn : 0 ≤ ⌈(chunks.flatten.length : ℚ) * 16000 / Fin⌉ := by
      apply Int.ceil_nonneg
      positivity
    have hcast : ((⌈(chunks.flatten.length : ℚ) * 16000 / Fin⌉.toNat : ℕ) : ℤ) =
        ⌈(chunks.flatten.length : ℚ) * 16000 / Fin⌉ := Int.toNat_of_nonneg hnn
    rw [hcast]
    have h1 := Int.floor_le_ceil ((chunks.flatten.length : ℚ) * 16000 / Fin)
    have h2 := Int.ceil_le_floor_add_one ((chunks.flatten.length : ℚ) * 16000 / Fin)
    refine ⟨h1, h2, ?_⟩
    rw [abs_le]
    omega

/-- C6 witness: a 48000 Hz resampler fed one chunk of three samples. -/
theorem resample_rate_correctness_witness :
    (0 : ℚ) < 48000 ∧
    (∀ c ∈ [[(1 : ℚ), 2, 3]], c ≠ []) ∧
    (⌊(([[(1 : ℚ), 2, 3]].flatten.length : ℚ) * 16000 / 48000)⌋ ≤
      ((resampleChunks (StreamingResampler.new 48000 16000)
        [[(1 : ℚ), 2, 3]]).1.length : ℤ) ∧
    ((resampleChunks (StreamingResampler.new 48000 16000)
        [[(1 : ℚ), 2, 3]]).1.length : ℤ) ≤
      ⌊(([[(1 : ℚ), 2, 3]].flatten.length : ℚ) * 16000 / 48000)⌋ + 1 ∧
    |((resampleChunks (StreamingResampler.new 48000 16000)
        [[(1 : ℚ), 2, 3]]).1.length : ℤ) -
      ⌊(([[(1 : ℚ), 2, 3]].flatten.length : ℚ) * 16000 / 48000)⌋| ≤ 1) :=
  ⟨by norm_num, by simp,
    resample_rate_correctness 48000 [[(1 : ℚ), 2, 3]] (by norm_num) (by simp)⟩

/-! ### C4: the per-sample output formula -/

/-- The `k`-th sample the loop emits is the quantized interpolation at
position `p + k·R`. -/
theorem emitLoop_get (R : ℚ) (input : List ℚ) (prev : ℚ) :
    ∀ (k : ℕ) (p : ℚ), k < (emitLoop R input prev p).1.length →
      (emitLoop R input prev p).1.getD k 0 =
        quantizeSample (interpAt input prev (p + (k : ℚ) * R)) := by
  intro k
  induction k with
  | zero =>
    intro p hk
    by_cases hcond : 0 < R ∧ 0 ≤ p ∧ p < (input.length : ℚ)
    · rw [emitLoop_step R input prev p hcond.1 hcond.2.1 hcond.2.2]
      simp
    · rw [emitLoop_stop R input prev p hcond] at hk
      simp at hk
  | succ k ih =>
    intro p hk
    by_cases hcond : 0 < R ∧ 0 ≤ p ∧ p < (input.length : ℚ)
    · rw [emitLoop_step R input prev p hcond.1 hcond.2.1 hcond.2.2] at hk ⊢
      simp only [List.getD_cons_succ]
      have hk' : k < (emitLoop R input prev (p + R)).1.length := by
        simp only [List.length_cons] at hk
        omega
      have := ih (p + R) hk'
      rw [this]
      have harg : p + R + (k : ℚ) * R = p + ((k + 1 : ℕ) : ℚ) * R := by
        push_cast
        ring
      rw [harg]
    · rw [emitLoop_stop R input prev p hcond] at hk
      simp at hk

/-- C4 amended.  Every sample a `resample` call emits equals
`clamp((a + f·(b − a)) · 32767, −32768, 32767)` truncated toward zero (the
`as i16` cast), where `a`, `b`, `f` are the endpoints and fractional part
selected for the output's position `fractional_pos + k·ratio` (`interpAt`),
with `prev` bridging the chunk boundary on the leading edge. -/
theorem resample_emit_trunc_formula (st : StreamingResampler)
    (input : List ℚ) (k : ℕ) (hk : k < (st.resample input).1.length) :
    (st.resample input).1.getD k 0 =
      quantizeSample (interpAt input
        (if st.initialized then st.prev_sample else input.headD 0)
        (st.fractional_pos + (k : ℚ) * st.ratio)) := by
  by_cases hie : input.isEmpty = true
  · unfold StreamingResampler.resample at hk
    rw [if_pos hie] at hk
    simp at hk
  · unfold StreamingResampler.resample at hk ⊢
    rw [if_neg hie] at hk ⊢
    exact emitLoop_get st.ratio input
      (if st.initialized then st.prev_sample else input.headD 0) k
      st.fractional_pos hk

/-- `interpAt` at an exact integer grid position: fractional part is zero, so
the value is the left endpoint — `prev` at index 0, else the input sample. -/
theorem interpAt_nat (input : List ℚ) (prev : ℚ) (i : ℕ) :
    interpAt input prev (i : ℚ) =
      if i = 0 then prev else input.getD i 0 := by
  by_cases hi : i = 0
  · subst hi
    simp [interpAt, show (0 : ℚ) < 1 / 1000 from by norm_num]
  · simp [interpAt, hi]

theorem interpAt_of_eq_nat (input : List ℚ) (prev : ℚ) (p : ℚ) (i : ℕ)
    (hp : p = (i : ℚ)) :
    interpAt input prev p = if i = 0 then prev else input.getD i 0 := by
  rw [hp, interpAt_nat]

theorem quantize_zero : quantizeSample 0 = 0 := by
  unfold quantizeSample truncToZero
  norm_num

theorem quantize_half : quantizeSample (1 / 2) = 16383 := by
  unfold quantizeSample truncToZero
  rw [show ((1 : ℚ) / 2) * 32767 = 32767 / 2 by ring]
  rw [min_eq_right (by norm_num), max_eq_right (by norm_num),
    if_pos (by norm_num)]
  rw [Int.floor_eq_iff]
  norm_num

theorem quantize_quarter : quantizeSample (1 / 4) = 8191 := by
  unfold quantizeSample truncToZero
  rw [show ((1 : ℚ) / 4) * 32767 = 32767 / 4 by ring]
  rw [min_eq_right (by norm_num), max_eq_right (by norm_num),
    if_pos (by norm_num)]
  rw [Int.floor_eq_iff]
  norm_num

/-- The claim's formula (with rounding) at the counterexample sample. -/
theorem round_half_formula :
    min (32767 : ℤ) (max (-32768) (round (((1 : ℚ) / 2) * 32767))) = 16384 := by
  rw [show ((1 : ℚ) / 2) * 32767 = 32767 / 2 by ring]
  rw [show round ((32767 : ℚ) / 2) = 16384 from by
    rw [round_eq, Int.floor_eq_iff]
    norm_num]
  norm_num

/-- C4 counterexample.  A fresh `(16000, 16000)` resampler fed `[1/2]` emits
`16383` (`as i16` truncates `16383.5`), while the claim's
`clamp(round((a + f·(b − a)) · 32767))` gives `16384`. -/
theorem resample_round_counterexample :
    ((StreamingResampler.new 16000 16000).resample [1 / 2]).1 = [16383] ∧
    min (32767 : ℤ) (max (-32768) (round (((1 : ℚ) / 2) * 32767))) = 16384 ∧
    (16383 : ℤ) ≠ 16384 := by
  have hnew : StreamingResampler.new 16000 16000 =
      ⟨1, 0, 0, false⟩ := by
    unfold StreamingResampler.new
    rw [StreamingResampler.mk.injEq]
    norm_num
  have e1 : emitLoop 1 [1 / 2] (1 / 2) 1 = ([], 1) :=
    emitLoop_stop 1 [1 / 2] (1 / 2) 1 (by norm_num)
  have e0 : emitLoop 1 [1 / 2] (1 / 2) 0 =
      (quantizeSample (interpAt [1 / 2] (1 / 2) 0) :: [], 1) := by
    rw [emitLoop_step 1 [1 / 2] (1 / 2) 0 (by norm_num) le_rfl (by norm_num)]
    rw [show (0 : ℚ) + 1 = 1 by norm_num, e1]
  have hv : quantizeSample (interpAt [1 / 2] (1 / 2) 0) = 16383 := by
    rw [interpAt_of_eq_nat [1 / 2] (1 / 2) 0 0 (by norm_num),
      if_pos rfl, quantize_half]
  refine ⟨?_, round_half_formula, by norm_num⟩
  rw [hnew]
  show (emitLoop (1 : ℚ) [1 / 2]
    (if false then (0 : ℚ) else ([(1 : ℚ) / 2]).headD 0) 0).1 = [16383]
  rw [show (if false then (0 : ℚ) else ([(1 : ℚ) / 2]).headD 0) = 1 / 2
    from rfl]
  rw [e0, hv]

/-- C4 amended, witness: the single sample emitted for `[1/2]` by a fresh
`(16000, 16000)` resampler matches the truncation formula at position
`0 + 0·ratio`. -/
theorem resample_emit_trunc_formula_witness :
    0 < ((StreamingResampler.new 16000 16000).resample [1 / 2]).1.length ∧
    ((StreamingResampler.new 16000 16000).resample [1 / 2]).1.getD 0 0 =
      quantizeSample (interpAt [1 / 2]
        (if (StreamingResampler.new 16000 16000).initialized then
          (StreamingResampler.new 16000 16000).prev_sample
        else ([(1 : ℚ) / 2]).headD 0)
        ((StreamingResampler.new 16000 16000).fractional_pos +
          ((0 : ℕ) : ℚ) * (StreamingResampler.new 16000 16000).ratio)) := by
  have hR : (0 : ℚ) < (StreamingResampler.new 16000 16000).ratio := by
    show (0 : ℚ) < 16000 / 16000
    norm_num
  have hlen : ((StreamingResampler.new 16000 16000).resample [1 / 2]).1.length
      = 1 := by
    obtain ⟨h1, _⟩ := resample_spec (StreamingResampler.new 16000 16000)
      [1 / 2] (by simp) hR le_rfl
    rw [h1]
    unfold emitCount
    rw [show (([(1 : ℚ) / 2]).length : ℚ) -
        (StreamingResampler.new 16000 16000).fractional_pos = 1 from by
      show ((1 : ℚ) - 0 : ℚ) = 1
      norm_num]
    rw [show (StreamingResampler.new 16000 16000).ratio = 1 from by
      show (16000 : ℚ) / 16000 = 1
      norm_num]
    norm_num
  have hk : 0 < ((StreamingResampler.new 16000 16000).resample [1 / 2]).1.length := by
    rw [hlen]
    norm_num
  exact ⟨hk, resample_emit_trunc_formula (StreamingResampler.new 16000 16000)
    [1 / 2] 0 hk⟩

/-- C3 counterexample.  Ratio 1 (rates `(16000, 16000)`): the chunked run
`[[0], [1/2], [1/4]]` emits `[0, 0, 16383]`, the whole run `[0, 1/2, 1/4]`
emits `[0, 16383, 8191]`; they differ already at index 1, not only at the
trailing sample. -/
theorem resample_chunking_counterexample :
    (resampleChunks (StreamingResampler.new 16000 16000)
      [[0], [1 / 2], [1 / 4]]).1 = [0, 0, 16383] ∧
    ((StreamingResampler.new 16000 16000).resample [0, 1 / 2, 1 / 4]).1 =
      [0, 16383, 8191] ∧
    (resampleChunks (StreamingResampler.new 16000 16000)
      [[0], [1 / 2], [1 / 4]]).1.dropLast ≠
      ((StreamingResampler.new 16000 16000).resample
        [0, 1 / 2, 1 / 4]).1.dropLast := by
  have hnew : StreamingResampler.new 16000 16000 = ⟨1, 0, 0, false⟩ := by
    unfold StreamingResampler.new
    rw [StreamingResampler.mk.injEq]
    norm_num
  -- whole-run loop: positions 0, 1, 2 over [0, 1/2, 1/4]
  have w3 : emitLoop 1 [0, 1 / 2, 1 / 4] 0 3 = ([], 3) :=
    emitLoop_stop 1 [0, 1 / 2, 1 / 4] 0 3 (by norm_num)
  have w2 : emitLoop 1 [0, 1 / 2, 1 / 4] 0 2 = ([8191], 3) := by
    rw [emitLoop_step 1 [0, 1 / 2, 1 / 4] 0 2 (by norm_num) (by norm_num)
      (by norm_num)]
    rw [show (2 : ℚ) + 1 = 3 by norm_num, w3]
    rw [interpAt_of_eq_nat [0, 1 / 2, 1 / 4] 0 2 2 (by norm_num),
      if_neg (by norm_num)]
    rw [show ([(0 : ℚ), 1 / 2, 1 / 4].getD 2 0) = 1 / 4 from rfl,
      quantize_quarter]
  have w1 : emitLoop 1 [0, 1 / 2, 1 / 4] 0 1 = ([16383, 8191], 3) := by
    rw [emitLoop_step 1 [0, 1 / 2, 1 / 4] 0 1 (by norm_num) (by norm_num)
      (by norm_num)]
    rw [show (1 : ℚ) + 1 = 2 by norm_num, w2]
    rw [interpAt_of_eq_nat [0, 1 / 2, 1 / 4] 0 1 1 (by norm_num),
      if_neg (by norm_num)]
    rw [show ([(0 : ℚ), 1 / 2, 1 / 4].getD 1 0) = 1 / 2 from rfl,
      quantize_half]
  have w0 : emitLoop 1 [0, 1 / 2, 1 / 4] 0 0 = ([0, 16383, 8191], 3) := by
    rw [emitLoop_step 1 [0, 1 / 2, 1 / 4] 0 0 (by norm_num) le_rfl
      (by norm_num)]
    rw [show (0 : ℚ) + 1 = 1 by norm_num, w1]
    rw [interpAt_of_eq_nat [0, 1 / 2, 1 / 4] 0 0 0 (by norm_num),
      if_pos rfl, quantize_zero]
  -- chunk 1: [0] from the fresh state
  have c1stop : emitLoop 1 [(0 : ℚ)] 0 1 = ([], 1) :=
    emitLoop_stop 1 [(0 : ℚ)] 0 1 (by norm_num)
  have c1 : emitLoop 1 [(0 : ℚ)] 0 0 = ([0], 1) := by
    rw [emitLoop_step 1 [(0 : ℚ)] 0 0 (by norm_num) le_rfl (by norm_num)]
    rw [show (0 : ℚ) + 1 = 1 by norm_num, c1stop]
    rw [interpAt_of_eq_nat [(0 : ℚ)] 0 0 0 (by norm_num),
      if_pos rfl, quantize_zero]
  -- chunk 2: [1/2] with prev 0 carried from chunk 1
  have c2stop : emitLoop 1 [(1 : ℚ) / 2] 0 1 = ([], 1) :=
    emitLoop_stop 1 [(1 : ℚ) / 2] 0 1 (by norm_num)
  have c2 : emitLoop 1 [(1 : ℚ) / 2] 0 0 = ([0], 1) := by
    rw [emitLoop_step 1 [(1 : ℚ) / 2] 0 0 (by norm_num) le_rfl (by norm_num)]
    rw [show (0 : ℚ) + 1 = 1 by norm_num, c2stop]
    rw [interpAt_of_eq_nat [(1 : ℚ) / 2] 0 0 0 (by norm_num),
      if_pos rfl, quantize_zero]
  -- chunk 3: [1/4] with prev 1/2 carried from chunk 2
  have c3stop : emitLoop 1 [(1 : ℚ) / 4] (1 / 2) 1 = ([], 1) :=
    emitLoop_stop 1 [(1 : ℚ) / 4] (1 / 2) 1 (by norm_num)
  have c3 : emitLoop 1 [(1 : ℚ) / 4] (1 / 2) 0 = ([16383], 1) := by
    rw [emitLoop_step 1 [(1 : ℚ) / 4] (1 / 2) 0 (by norm_num) le_rfl
      (by norm_num)]
    rw [show (0 : ℚ) + 1 = 1 by norm_num, c3stop]
    rw [interpAt_of_eq_nat [(1 : ℚ) / 4] (1 / 2) 0 0 (by norm_num),
      if_pos rfl, quantize_half]
  have hwhole : ((⟨1, 0, 0, false⟩ : StreamingResampler).resample
      [0, 1 / 2, 1 / 4]).1 = [0, 16383, 8191] := by
    show (emitLoop 1 [0, 1 / 2, 1 / 4]
      (if false then (0 : ℚ) else ([(0 : ℚ), 1 / 2, 1 / 4]).headD 0) 0).1 = _
    rw [show (if false then (0 : ℚ) else ([(0 : ℚ), 1 / 2, 1 / 4]).headD 0) = 0
      from rfl]
    rw [w0]
  have hch1 : (⟨1, 0, 0, false⟩ : StreamingResampler).resample [(0 : ℚ)] =
      ([0], ⟨1, 0, 0, true⟩) := by
    show ((emitLoop 1 [(0 : ℚ)]
        (if false then (0 : ℚ) else ([(0 : ℚ)]).headD 0) 0).1, _) = _
    rw [show (if false then (0 : ℚ) else ([(0 : ℚ)]).headD 0) = 0 from rfl]
    rw [Prod.mk.injEq]
    constructor
    · rw [c1]
    · rw [StreamingResampler.mk.injEq]
      refine ⟨rfl, ?_, rfl, rfl⟩
      rw [c1]
      norm_num
  have hch2 : (⟨1, 0, 0, true⟩ : StreamingResampler).resample [(1 : ℚ) / 2] =
      ([0], ⟨1, 0, 1 / 2, true⟩) := by
    show ((emitLoop 1 [(1 : ℚ) / 2]
        (if true then (0 : ℚ) else ([(1 : ℚ) / 2]).headD 0) 0).1, _) = _
    rw [show (if true then (0 : ℚ) else ([(1 : ℚ) / 2]).headD 0) = 0 from rfl]
    rw [Prod.mk.injEq]
    constructor
    · rw [c2]
    · rw [StreamingResampler.mk.injEq]
      refine ⟨rfl, ?_, rfl, rfl⟩
      rw [c2]
      norm_num
  have hch3 : (⟨1, 0, 1 / 2, true⟩ : StreamingResampler).resample
      [(1 : ℚ) / 4] = ([16383], ⟨1, 0, 1 / 4, true⟩) := by
    show ((emitLoop 1 [(1 : ℚ) / 4]
        (if true then (1 : ℚ) / 2 else ([(1 : ℚ) / 4]).headD 0) 0).1, _) = _
    rw [show (if true then (1 : ℚ) / 2 else ([(1 : ℚ) / 4]).headD 0) = 1 / 2
      from rfl]
    rw [Prod.mk.injEq]
    constructor
    · rw [c3]
    · rw [StreamingResampler.mk.injEq]
      refine ⟨rfl, ?_, rfl, rfl⟩
      rw [c3]
      norm_num
  have hchunks : (resampleChunks (⟨1, 0, 0, false⟩ : StreamingResampler)
      [[0], [1 / 2], [1 / 4]]).1 = [0, 0, 16383] := by
    rw [resampleChunks_cons, hch1]
    show ([(0 : ℤ)] ++ (resampleChunks (⟨1, 0, 0, true⟩ : StreamingResampler)
      [[1 / 2], [1 / 4]]).1) = _
    rw [resampleChunks_cons, hch2]
    show ([(0 : ℤ)] ++ ([0] ++ (resampleChunks
      (⟨1, 0, 1 / 2, true⟩ : StreamingResampler) [[1 / 4]]).1)) = _
    rw [resampleChunks_cons, hch3]
    rfl
  rw [hnew]
  refine ⟨hchunks, hwhole, ?_⟩
  rw [hchunks, hwhole]
  decide

end Rustyn
